import Mathlib

/-!
Shallow embedding of the todo application's data-access core
(`src/features/todos/api/todoApi.ts`): the persistent store shim
(`persist` / `readStore` / `ensureSeedData`), the simulated resource API
(`list` / `create` / `update` / `toggleCompletion` / `delete`) and the
sorting helper `sortByCreatedAtDesc`.

Modelling conventions:
* Timestamps (`createdAt`, `updatedAt`, normalized `dueDate`) are stored
  in the source as canonical ISO-8601 strings produced by
  `Date.prototype.toISOString` and are compared by their parsed epoch
  time; since `toISOString` is injective and order-preserving on times,
  timestamps are embedded as `Int` epoch milliseconds.
* `new Date(str)` on a caller-supplied string is host behaviour; it is
  embedded as an explicit parse function `Env.parseDate : String →
  Option Int`, where `none` models an Invalid Date (on which
  `toISOString` throws a RangeError).
* `nanoid()` and `new Date()` are nondeterministic inputs; each operation
  receives them explicitly (`OpCtx`, `SeedCtx`).
* `clone` (`JSON.parse(JSON.stringify(v))`) is a structural deep copy; it
  is embedded as a field-by-field rebuild, proved equal field-for-field.
* The artificial latency `delay` only postpones resolution of an already
  computed value and is dropped from the embedding.
* `localStorage` holds either no entry, an unparsable entry, or a
  serialized todo array; JSON round-tripping a well-typed todo array is
  the identity on its value, so the cell stores the typed collection.
-/

namespace TodoApp

/-- The `Todo` record from `src/features/todos/types.ts`.
`dueDate : string | null` becomes `Option Int` (a canonical timestamp or
null); `createdAt` / `updatedAt` are canonical timestamps. -/
structure Todo where
  id : String
  title : String
  description : String
  dueDate : Option Int
  completed : Bool
  createdAt : Int
  updatedAt : Int
deriving DecidableEq, Repr

/-- Host date parsing, `new Date(str).getTime()`: `none` models an
Invalid Date, on which `toISOString` would throw. -/
structure Env where
  parseDate : String → Option Int

/-- `String.prototype.trim`: strip leading and trailing whitespace
(embedded over the character list so it evaluates structurally). -/
def jsTrim (s : String) : String :=
  String.mk (((s.data.dropWhile Char.isWhitespace).reverse.dropWhile
    Char.isWhitespace).reverse)

/-- Errors the resource API can throw: `Error('Todo not found')`, or the
RangeError raised by `toISOString` on an Invalid Date. -/
inductive ApiError where
  | notFound
  | invalidDate
deriving DecidableEq, Repr

/-- A field of a TypeScript partial-object literal: the key can be
absent, present with value `undefined`, or present with a value. -/
inductive Arg (α : Type) where
  | absent
  | undef
  | val (a : α)
deriving DecidableEq, Repr

/-- `CreateTodoInput` from `types.ts`. `description?: string` cannot
distinguish absent from undefined in `create` (only `?.` / `??` are
used), so it is `Option String`; `dueDate?: string | null` is
`Option (Option String)` (`none` = absent/undefined, `some none` =
null, `some (some s)` = a string). -/
structure CreateTodoInput where
  title : String
  description : Option String
  dueDate : Option (Option String)
  completed : Option Bool
deriving DecidableEq, Repr

/-- `UpdateTodoInput` from `types.ts`; `update` tests key presence with
`'key' in input`, so every field keeps the full three-way distinction.
For `dueDate` the carried value is `Option String` (`none` = null). -/
structure UpdateTodoInput where
  title : Arg String
  description : Arg String
  dueDate : Arg (Option String)
  completed : Arg Bool
deriving DecidableEq, Repr

/-- The content of `localStorage[STORAGE_KEY]`: missing, unparsable, or a
serialized todo collection. -/
inductive RawCell where
  | empty
  | corrupt
  | data (todos : List Todo)
deriving DecidableEq, Repr

/-- The store shim's state: the module-level `inMemoryStore`, the
browser `localStorage` cell, and whether `isBrowser()` holds. -/
structure StoreState where
  inMemory : List Todo
  cell : RawCell
  browser : Bool
deriving DecidableEq, Repr

/-- `clone` on a single todo: `JSON.parse(JSON.stringify(t))` rebuilds
the record field by field. -/
def cloneTodo (t : Todo) : Todo :=
  { id := t.id
    title := t.title
    description := t.description
    dueDate := t.dueDate
    completed := t.completed
    createdAt := t.createdAt
    updatedAt := t.updatedAt }

/-- `clone` on a todo collection. -/
def cloneTodos (ts : List Todo) : List Todo :=
  ts.map cloneTodo

/-- `persist(todos)`: replaces `inMemoryStore` with a clone and, in a
browser, writes the serialized collection to `localStorage`. -/
def persist (todos : List Todo) (s : StoreState) : StoreState :=
  { inMemory := cloneTodos todos
    cell := if s.browser then RawCell.data todos else s.cell
    browser := s.browser }

/-- `readStore()`: in a browser with a parsable stored entry, syncs
`inMemoryStore` to it and returns a clone; otherwise (no entry,
unparsable entry, or no browser) returns a clone of `inMemoryStore`. -/
def readStore (s : StoreState) : List Todo × StoreState :=
  if s.browser then
    match s.cell with
    | RawCell.data parsed => (cloneTodos parsed, { s with inMemory := parsed })
    | _ => (cloneTodos s.inMemory, s)
  else
    (cloneTodos s.inMemory, s)

/-- The persisted collection as observed through `readStore`. -/
def persistedOf (s : StoreState) : List Todo :=
  (readStore s).1

/-- One day in milliseconds, the granularity used by the seed data. -/
def dayMs : Int := 86400000

/-- The nondeterministic inputs of one `ensureSeedData` call: `new
Date()` and the three `nanoid()` results. -/
structure SeedCtx where
  now : Int
  id1 : String
  id2 : String
  id3 : String
deriving DecidableEq, Repr

/-- The fixed three-item seed collection built by `ensureSeedData`.
`tomorrow` / `nextWeek` (calendar-day shifts) are embedded as whole-day
millisecond offsets. -/
def seedItems (c : SeedCtx) : List Todo :=
  [ { id := c.id1
      title := "Plan weekly sprint"
      description := "Collect feature requests, draft priorities, and sync with the team for next week\x27s roadmap."
      completed := false
      dueDate := some (c.now + dayMs)
      createdAt := c.now
      updatedAt := c.now },
    { id := c.id2
      title := "Refactor authentication module"
      description := "Simplify provider logic and add integration tests for the refresh token flow."
      completed := false
      dueDate := some (c.now + 7 * dayMs)
      createdAt := c.now - 2 * dayMs
      updatedAt := c.now - 2 * dayMs },
    { id := c.id3
      title := "Archive stale feature flags"
      description := "Audit LaunchDarkly dashboard and shut down flags that shipped last quarter."
      completed := true
      dueDate := none
      createdAt := c.now - 7 * dayMs
      updatedAt := c.now - 5 * dayMs } ]

/-- `ensureSeedData(todos)`: a non-empty collection is returned as is;
an empty one is replaced by the seed set, which is persisted, and a
clone of the seed is returned. -/
def ensureSeedData (c : SeedCtx) (todos : List Todo) (s : StoreState) :
    List Todo × StoreState :=
  if todos.length > 0 then
    (todos, s)
  else
    (cloneTodos (seedItems c), persist (seedItems c) s)

/-- Insertion step of `sortByCreatedAtDesc`: place `t` before the first
element with a strictly smaller `createdAt` (stable, newest first). -/
def insertByCreatedDesc (t : Todo) : List Todo → List Todo
  | [] => [t]
  | u :: us =>
    if u.createdAt < t.createdAt then t :: u :: us
    else u :: insertByCreatedDesc t us

/-- `sortByCreatedAtDesc`: sorts a copy of the collection by `createdAt`
descending (the `(a, b) => time(b.createdAt) - time(a.createdAt)`
comparator). -/
def sortByCreatedAtDesc : List Todo → List Todo
  | [] => []
  | t :: ts => insertByCreatedDesc t (sortByCreatedAtDesc ts)

/-- The nondeterministic inputs of one resource-API call: `new Date()`
for the mutation itself, the fresh `nanoid()` for `create`, and the
inputs a possible `ensureSeedData` seeding would draw. The source reads
its clock once for the seed and once for the mutation. -/
structure OpCtx where
  now : Int
  newId : String
  seed : SeedCtx
deriving DecidableEq, Repr

/-- `value ? new Date(value).toISOString() : null` on a
`string | null | undefined` value: any falsy value (null, undefined,
empty string) yields null; a non-empty string is parsed, throwing on an
Invalid Date. -/
def normalizeDueDate (env : Env) : Option String → Except ApiError (Option Int)
  | none => Except.ok none
  | some str =>
    if str = "" then Except.ok none
    else
      match env.parseDate str with
      | some t => Except.ok (some t)
      | none => Except.error ApiError.invalidDate

/-- `todos.find((todo) => todo.id === id)` (and `findIndex === -1`
exactly when this is `none`). -/
def findFirst (id : String) (todos : List Todo) : Option Todo :=
  todos.find? (fun t => t.id = id)

/-- `next = [...todos]; next[index] = f(next[index])` for the first
index whose id matches: replace the first matching element, leave every
other element untouched. -/
def replaceFirst (id : String) (f : Todo → Todo) : List Todo → List Todo
  | [] => []
  | t :: ts => if t.id = id then f t :: ts else t :: replaceFirst id f ts

/-- `next.splice(index, 1)` for the first index whose id matches. -/
def removeFirst (id : String) : List Todo → List Todo
  | [] => []
  | t :: ts => if t.id = id then ts else t :: removeFirst id ts

/-- `todoApi.list()`: read, seed if empty, return a sorted copy. -/
def listTodos (c : SeedCtx) (s : StoreState) :
    Except ApiError (List Todo) × StoreState :=
  let r := readStore s
  let e := ensureSeedData c r.1 r.2
  (Except.ok (sortByCreatedAtDesc e.1), e.2)

/-- `todoApi.create(input)`: the todo literal is built first (the
`dueDate` normalization can throw here, before the store is touched);
then read, seed if empty, prepend, re-sort, persist, and return a clone
of the created todo. -/
def createTodo (env : Env) (input : CreateTodoInput) (ctx : OpCtx)
    (s : StoreState) : Except ApiError Todo × StoreState :=
  match normalizeDueDate env input.dueDate.join with
  | Except.error e => (Except.error e, s)
  | Except.ok dd =>
    let todo : Todo :=
      { id := ctx.newId
        title := jsTrim input.title
        description := (input.description.map jsTrim).getD ""
        dueDate := dd
        completed := input.completed.getD false
        createdAt := ctx.now
        updatedAt := ctx.now }
    let r := readStore s
    let e := ensureSeedData ctx.seed r.1 r.2
    let next := sortByCreatedAtDesc (todo :: e.1)
    (Except.ok (cloneTodo todo), persist next e.2)

/-- The merged object literal of `todoApi.update`: spread the existing
todo, override `title` / `description` / `completed` when the key is
present with a defined value, override `dueDate` whenever its key is
present (any falsy value clears it), and always refresh `updatedAt`. -/
def applyPatch (env : Env) (input : UpdateTodoInput) (now : Int)
    (existing : Todo) : Except ApiError Todo :=
  match
    (match input.dueDate with
     | Arg.absent => Except.ok existing.dueDate
     | Arg.undef => Except.ok none
     | Arg.val v => normalizeDueDate env v) with
  | Except.error e => Except.error e
  | Except.ok dd =>
    Except.ok
      { existing with
        title := match input.title with
          | Arg.val v => jsTrim v
          | _ => existing.title
        description := match input.description with
          | Arg.val v => jsTrim v
          | _ => existing.description
        dueDate := dd
        completed := match input.completed with
          | Arg.val v => v
          | _ => existing.completed
        updatedAt := now }

/-- `todoApi.update(id, input)`: read, seed if empty, fail with
NotFound if the id is absent; build the merged todo (the `dueDate`
normalization can throw here, after a possible seeding); write it back
at the found index; persist; return a clone of the updated todo. -/
def updateTodo (env : Env) (id : String) (input : UpdateTodoInput)
    (ctx : OpCtx) (s : StoreState) : Except ApiError Todo × StoreState :=
  let r := readStore s
  let e := ensureSeedData ctx.seed r.1 r.2
  match findFirst id e.1 with
  | none => (Except.error ApiError.notFound, e.2)
  | some existing =>
    match applyPatch env input ctx.now existing with
    | Except.error err => (Except.error err, e.2)
    | Except.ok updated =>
      let next := replaceFirst id (fun _ => updated) e.1
      (Except.ok (cloneTodo updated), persist next e.2)

/-- `todoApi.toggleCompletion(id)`: read, seed if empty, fail with
NotFound if the id is absent; flip `completed`, refresh `updatedAt`,
write back at the found index, persist, return a clone. -/
def toggleCompletion (id : String) (ctx : OpCtx) (s : StoreState) :
    Except ApiError Todo × StoreState :=
  let r := readStore s
  let e := ensureSeedData ctx.seed r.1 r.2
  match findFirst id e.1 with
  | none => (Except.error ApiError.notFound, e.2)
  | some existing =>
    let updated : Todo :=
      { existing with completed := !existing.completed, updatedAt := ctx.now }
    let next := replaceFirst id (fun _ => updated) e.1
    (Except.ok (cloneTodo updated), persist next e.2)

/-- `todoApi.delete(id)`: read, seed if empty, fail with NotFound if the
id is absent; splice out the found index and persist. -/
def deleteTodo (id : String) (ctx : OpCtx) (s : StoreState) :
    Except ApiError Unit × StoreState :=
  let r := readStore s
  let e := ensureSeedData ctx.seed r.1 r.2
  match findFirst id e.1 with
  | none => (Except.error ApiError.notFound, e.2)
  | some _ =>
    let next := removeFirst id e.1
    (Except.ok (), persist next e.2)

/-- One resource-API mutation together with its nondeterministic
inputs. -/
inductive Op where
  | create (input : CreateTodoInput) (ctx : OpCtx)
  | update (id : String) (input : UpdateTodoInput) (ctx : OpCtx)
  | toggle (id : String) (ctx : OpCtx)
  | remove (id : String) (ctx : OpCtx)
deriving Repr

/-- The store state left behind by one mutation, whether it succeeded
or threw. -/
def applyOp (env : Env) (op : Op) (s : StoreState) : StoreState :=
  match op with
  | Op.create input ctx => (createTodo env input ctx s).2
  | Op.update id input ctx => (updateTodo env id input ctx s).2
  | Op.toggle id ctx => (toggleCompletion id ctx s).2
  | Op.remove id ctx => (deleteTodo id ctx s).2

/-- The store state after a whole sequence of mutations. -/
def applyOps (env : Env) (ops : List Op) (s : StoreState) : StoreState :=
  match ops with
  | [] => s
  | op :: rest => applyOps env rest (applyOp env op s)

/-- The data-model invariant on the persisted collection: ids are
unique and no item was updated before it was created. -/
def Inv (s : StoreState) : Prop :=
  ((persistedOf s).map Todo.id).Nodup ∧
    ∀ t ∈ persistedOf s, t.createdAt ≤ t.updatedAt

/-- The collection a mutation actually works on: the persisted one, or
the seed set when it is empty. -/
def afterSeed (c : SeedCtx) (s : StoreState) : List Todo :=
  if (persistedOf s).length > 0 then persistedOf s else seedItems c

/-- The three `nanoid()` draws of one seeding are pairwise distinct. -/
def seedOk (c : SeedCtx) : Prop :=
  c.id1 ≠ c.id2 ∧ c.id1 ≠ c.id3 ∧ c.id2 ≠ c.id3

/-- The environment facts one mutation relies on: `nanoid()` draws are
fresh and pairwise distinct, and the wall clock never runs behind any
item's creation time. -/
def OpValid (op : Op) (s : StoreState) : Prop :=
  match op with
  | Op.create _ ctx =>
    seedOk ctx.seed ∧ ctx.newId ∉ (afterSeed ctx.seed s).map Todo.id
  | Op.update _ _ ctx =>
    seedOk ctx.seed ∧ ∀ t ∈ afterSeed ctx.seed s, t.createdAt ≤ ctx.now
  | Op.toggle _ ctx =>
    seedOk ctx.seed ∧ ∀ t ∈ afterSeed ctx.seed s, t.createdAt ≤ ctx.now
  | Op.remove _ ctx => seedOk ctx.seed

/-- Every mutation of the sequence is issued with valid environment
inputs in the state it actually runs in. -/
def ValidTrace (env : Env) : List Op → StoreState → Prop
  | [], _ => True
  | op :: rest, s => OpValid op s ∧ ValidTrace env rest (applyOp env op s)

instance decSeedOk (c : SeedCtx) : Decidable (seedOk c) := by
  unfold seedOk; infer_instance

instance decInv (s : StoreState) : Decidable (Inv s) := by
  unfold Inv; infer_instance

instance decOpValid (op : Op) (s : StoreState) : Decidable (OpValid op s) := by
  unfold OpValid
  match op with
  | Op.create _ _ => exact instDecidableAnd
  | Op.update _ _ _ => exact instDecidableAnd
  | Op.toggle _ _ => exact instDecidableAnd
  | Op.remove _ _ => exact decSeedOk _

instance decValidTrace (env : Env) :
    (ops : List Op) → (s : StoreState) → Decidable (ValidTrace env ops s)
  | [], _ => isTrue trivial
  | op :: rest, s =>
    have : Decidable (ValidTrace env rest (applyOp env op s)) :=
      decValidTrace env rest (applyOp env op s)
    instDecidableAnd

/-- The due date an update stores, per field shape: an absent key keeps
the old value; a present key with undefined, null or the empty string
clears it; a present non-empty string is parsed. -/
def patchedDueDate (env : Env) (d : Arg (Option String)) (old : Option Int) :
    Option Int :=
  match d with
  | Arg.absent => old
  | Arg.undef => none
  | Arg.val none => none
  | Arg.val (some str) => if str = "" then none else env.parseDate str

/-- The update input's due date, when its key carries a non-empty
string, parses as a date (so normalization does not throw). -/
def DueDateParses (env : Env) (d : Arg (Option String)) : Prop :=
  ∀ str, d = Arg.val (some str) → str ≠ "" → env.parseDate str ≠ none

/-- The update input with every key absent: `update(id, {})`. -/
def emptyPatch : UpdateTodoInput :=
  { title := Arg.absent
    description := Arg.absent
    dueDate := Arg.absent
    completed := Arg.absent }

/-- A host on which no string parses as a date (witness environment). -/
def envNone : Env := { parseDate := fun _ => none }

/-- A host on which every string parses to the same date (witness
environment). -/
def envAll : Env := { parseDate := fun _ => some 7 }

/-- A concrete stored todo used by witnesses. -/
def todoA : Todo :=
  { id := "t1"
    title := "Hello"
    description := "d"
    dueDate := some 5
    completed := false
    createdAt := 0
    updatedAt := 0 }

/-- A non-browser store whose collection is empty. -/
def stEmpty : StoreState :=
  { inMemory := [], cell := RawCell.empty, browser := false }

/-- A non-browser store holding exactly `todoA`. -/
def stOne : StoreState :=
  { inMemory := [todoA], cell := RawCell.empty, browser := false }

/-- Concrete seeding inputs used by witnesses. -/
def seedC : SeedCtx := { now := 0, id1 := "s1", id2 := "s2", id3 := "s3" }

/-- Concrete mutation inputs used by witnesses. -/
def ctxC : OpCtx := { now := 9, newId := "n1", seed := seedC }

theorem cloneTodo_eq (t : Todo) : cloneTodo t = t := rfl

theorem cloneTodos_eq (ts : List Todo) : cloneTodos ts = ts := by
  induction ts with
  | nil => rfl
  | cons t ts ih => simpa [cloneTodos] using And.intro (cloneTodo_eq t) ih

theorem persistedOf_persist (c : List Todo) (s : StoreState) :
    persistedOf (persist c s) = c := by
  by_cases hb : s.browser <;>
    simp [persistedOf, readStore, persist, hb, cloneTodos_eq]

theorem persistedOf_readStore_snd (s : StoreState) :
    persistedOf (readStore s).2 = persistedOf s := by
  by_cases hb : s.browser
  · cases hc : s.cell <;> simp [persistedOf, readStore, hb, hc]
  · simp [persistedOf, readStore, hb]

theorem ensureSeedData_fst (c : SeedCtx) (s : StoreState) :
    (ensureSeedData c (readStore s).1 (readStore s).2).1 = afterSeed c s := by
  by_cases h : (persistedOf s).length > 0 <;>
    simp [ensureSeedData, afterSeed, persistedOf] at h ⊢ <;>
    simp [h, cloneTodos_eq]

theorem ensureSeedData_snd (c : SeedCtx) (s : StoreState) :
    persistedOf (ensureSeedData c (readStore s).1 (readStore s).2).2 =
      afterSeed c s := by
  by_cases h : (persistedOf s).length > 0
  · have h' : ((readStore s).1).length > 0 := h
    simp [ensureSeedData, afterSeed, h, h', persistedOf_readStore_snd]
  · have h' : ¬ ((readStore s).1).length > 0 := h
    simp [ensureSeedData, afterSeed, h, h', persistedOf_persist]

theorem insertByCreatedDesc_perm (t : Todo) (l : List Todo) :
    List.Perm (insertByCreatedDesc t l) (t :: l) := by
  induction l with
  | nil => rfl
  | cons u us ih =>
    by_cases h : u.createdAt < t.createdAt
    · simp [insertByCreatedDesc, h]
    · simp only [insertByCreatedDesc, if_neg h]
      exact ((ih.cons u).trans (List.Perm.swap t u us))

theorem sortByCreatedAtDesc_perm (l : List Todo) :
    List.Perm (sortByCreatedAtDesc l) l := by
  induction l with
  | nil => rfl
  | cons t ts ih =>
    exact (insertByCreatedDesc_perm t (sortByCreatedAtDesc ts)).trans (ih.cons t)

theorem mem_insertByCreatedDesc {x t : Todo} {l : List Todo} :
    x ∈ insertByCreatedDesc t l ↔ x = t ∨ x ∈ l := by
  rw [(insertByCreatedDesc_perm t l).mem_iff]
  simp

theorem insertByCreatedDesc_pairwise {t : Todo} {l : List Todo}
    (h : l.Pairwise (fun a b => b.createdAt ≤ a.createdAt)) :
    (insertByCreatedDesc t l).Pairwise (fun a b => b.createdAt ≤ a.createdAt) := by
  induction l with
  | nil => simp [insertByCreatedDesc]
  | cons u us ih =>
    rcases List.pairwise_cons.mp h with ⟨hu, hus⟩
    by_cases hc : u.createdAt < t.createdAt
    · simp only [insertByCreatedDesc, if_pos hc]
      refine List.pairwise_cons.mpr ⟨?_, h⟩
      intro x hx
      rcases List.mem_cons.mp hx with rfl | hx
      · exact le_of_lt hc
      · exact le_trans (hu x hx) (le_of_lt hc)
    · simp only [insertByCreatedDesc, if_neg hc]
      refine List.pairwise_cons.mpr ⟨?_, ih hus⟩
      intro x hx
      rcases mem_insertByCreatedDesc.mp hx with hx | hx
      · subst hx; exact le_of_not_lt hc
      · exact hu x hx

theorem sortByCreatedAtDesc_pairwise (l : List Todo) :
    (sortByCreatedAtDesc l).Pairwise (fun a b => b.createdAt ≤ a.createdAt) := by
  induction l with
  | nil => simp [sortByCreatedAtDesc]
  | cons t ts ih => exact insertByCreatedDesc_pairwise ih

theorem findFirst_some {id : String} {l : List Todo} {e : Todo}
    (h : findFirst id l = some e) : e ∈ l ∧ e.id = id := by
  refine ⟨List.mem_of_find?_eq_some h, ?_⟩
  have := List.find?_some h
  simpa using this

theorem replaceFirst_map_id {id : String} {f : Todo → Todo}
    (hf : ∀ t : Todo, t.id = id → (f t).id = t.id) (l : List Todo) :
    (replaceFirst id f l).map Todo.id = l.map Todo.id := by
  induction l with
  | nil => rfl
  | cons t ts ih =>
    by_cases h : t.id = id
    · simp [replaceFirst, h, hf t h]
    · simp [replaceFirst, h, ih]

theorem mem_replaceFirst {x u : Todo} {id : String} {l : List Todo}
    (h : x ∈ replaceFirst id (fun _ => u) l) : x = u ∨ x ∈ l := by
  induction l with
  | nil => simp [replaceFirst] at h
  | cons t ts ih =>
    by_cases ht : t.id = id
    · simp only [replaceFirst, if_pos ht] at h
      rcases List.mem_cons.mp h with rfl | h
      · exact Or.inl rfl
      · exact Or.inr (List.mem_cons_of_mem t h)
    · simp only [replaceFirst, if_neg ht] at h
      rcases List.mem_cons.mp h with rfl | h
      · exact Or.inr (List.mem_cons_self _ _)
      · rcases ih h with h | h
        · exact Or.inl h
        · exact Or.inr (List.mem_cons_of_mem t h)

theorem mem_replaceFirst_of_ne {x : Todo} {id : String} {f : Todo → Todo}
    {l : List Todo} (hx : x ∈ l) (hne : x.id ≠ id) :
    x ∈ replaceFirst id f l := by
  induction l with
  | nil => simp at hx
  | cons t ts ih =>
    rcases List.mem_cons.mp hx with rfl | hx
    · simp [replaceFirst, hne]
    · by_cases ht : t.id = id
      · simp [replaceFirst, ht, List.mem_cons_of_mem _ hx]
      · simp only [replaceFirst, if_neg ht]
        exact List.mem_cons_of_mem t (ih hx)

theorem removeFirst_sublist (id : String) (l : List Todo) :
    (removeFirst id l).Sublist l := by
  induction l with
  | nil => simp [removeFirst]
  | cons t ts ih =>
    by_cases ht : t.id = id
    · simp [removeFirst, ht]
    · simpa [removeFirst, ht] using ih.cons₂ t

theorem seedItems_inv (c : SeedCtx) (h : seedOk c) :
    ((seedItems c).map Todo.id).Nodup ∧
      ∀ t ∈ seedItems c, t.createdAt ≤ t.updatedAt := by
  obtain ⟨h12, h13, h23⟩ := h
  constructor
  · simp [seedItems, h12, h13, h23]
  · intro t ht
    simp only [seedItems, List.mem_cons, List.not_mem_nil, or_false] at ht
    rcases ht with rfl | rfl | rfl
    · simp
    · simp
    · simp only [dayMs]; omega

theorem afterSeed_inv {c : SeedCtx} {s : StoreState} (hInv : Inv s)
    (hc : seedOk c) :
    ((afterSeed c s).map Todo.id).Nodup ∧
      ∀ t ∈ afterSeed c s, t.createdAt ≤ t.updatedAt := by
  unfold afterSeed
  by_cases h : (persistedOf s).length > 0
  · simpa [h] using hInv
  · simpa [h] using seedItems_inv c hc

theorem inv_persist {c : List Todo} (s : StoreState)
    (h1 : (c.map Todo.id).Nodup)
    (h2 : ∀ t ∈ c, t.createdAt ≤ t.updatedAt) : Inv (persist c s) := by
  unfold Inv
  rw [persistedOf_persist]
  exact ⟨h1, h2⟩

theorem inv_seedStep {c : SeedCtx} {s : StoreState} (hInv : Inv s)
    (hc : seedOk c) :
    Inv (ensureSeedData c (readStore s).1 (readStore s).2).2 := by
  unfold Inv
  rw [ensureSeedData_snd]
  exact afterSeed_inv hInv hc

theorem applyPatch_ok {env : Env} {input : UpdateTodoInput} {now : Int}
    {existing u : Todo} (h : applyPatch env input now existing = Except.ok u) :
    u.id = existing.id ∧ u.createdAt = existing.createdAt ∧
      u.updatedAt = now := by
  unfold applyPatch at h
  split at h
  · exact Except.noConfusion h
  · simp only [Except.ok.injEq] at h
    subst h
    exact ⟨rfl, rfl, rfl⟩

theorem inv_applyOp_create {env : Env} {input : CreateTodoInput} {ctx : OpCtx}
    {s : StoreState} (hInv : Inv s) (hv : OpValid (Op.create input ctx) s) :
    Inv (applyOp env (Op.create input ctx) s) := by
  obtain ⟨hseed, hfresh⟩ := hv
  have haft := afterSeed_inv (c := ctx.seed) hInv hseed
  simp only [applyOp]
  unfold createTodo
  cases hn : normalizeDueDate env input.dueDate.join with
  | error e => exact hInv
  | ok dd =>
    dsimp only
    apply inv_persist
    · have hperm :
        List.Perm
          ((sortByCreatedAtDesc
            ({ id := ctx.newId, title := jsTrim input.title,
               description := (input.description.map jsTrim).getD "",
               dueDate := dd, completed := input.completed.getD false,
               createdAt := ctx.now, updatedAt := ctx.now } ::
              (ensureSeedData ctx.seed (readStore s).1 (readStore s).2).1)).map Todo.id)
          (ctx.newId ::
            ((ensureSeedData ctx.seed (readStore s).1 (readStore s).2).1).map Todo.id) :=
        (sortByCreatedAtDesc_perm _).map Todo.id
      rw [hperm.nodup_iff, ensureSeedData_fst, List.nodup_cons]
      exact ⟨hfresh, haft.1⟩
    · intro t ht
      have := (sortByCreatedAtDesc_perm _).mem_iff.mp ht
      rcases List.mem_cons.mp this with rfl | hmem
      · exact le_refl _
      · rw [ensureSeedData_fst] at hmem
        exact haft.2 t hmem

theorem inv_applyOp_update {env : Env} {id : String} {input : UpdateTodoInput}
    {ctx : OpCtx} {s : StoreState} (hInv : Inv s)
    (hv : OpValid (Op.update id input ctx) s) :
    Inv (applyOp env (Op.update id input ctx) s) := by
  obtain ⟨hseed, hclock⟩ := hv
  have haft := afterSeed_inv (c := ctx.seed) hInv hseed
  unfold applyOp updateTodo
  cases hf :
      findFirst id (ensureSeedData ctx.seed (readStore s).1 (readStore s).2).1 with
  | none => simpa [hf] using inv_seedStep hInv hseed
  | some existing =>
    have hfind := findFirst_some hf
    rw [ensureSeedData_fst] at hfind
    cases hp : applyPatch env input ctx.now existing with
    | error err => simpa [hf, hp] using inv_seedStep hInv hseed
    | ok u =>
      obtain ⟨hid, hcreated, hupd⟩ := applyPatch_ok hp
      simp only [hf, hp]
      apply inv_persist
      · rw [ensureSeedData_fst,
          replaceFirst_map_id (fun t ht => (hid.trans hfind.2).trans ht.symm)]
        exact haft.1
      · intro t ht
        rcases mem_replaceFirst ht with rfl | hmem
        · rw [hcreated, hupd]
          exact hclock existing hfind.1
        · rw [ensureSeedData_fst] at hmem
          exact haft.2 t hmem

theorem inv_applyOp_toggle {env : Env} {id : String} {ctx : OpCtx}
    {s : StoreState} (hInv : Inv s) (hv : OpValid (Op.toggle id ctx) s) :
    Inv (applyOp env (Op.toggle id ctx) s) := by
  obtain ⟨hseed, hclock⟩ := hv
  have haft := afterSeed_inv (c := ctx.seed) hInv hseed
  unfold applyOp toggleCompletion
  cases hf :
      findFirst id (ensureSeedData ctx.seed (readStore s).1 (readStore s).2).1 with
  | none => simpa [hf] using inv_seedStep hInv hseed
  | some existing =>
    have hfind := findFirst_some hf
    rw [ensureSeedData_fst] at hfind
    simp only [hf]
    apply inv_persist
    · rw [ensureSeedData_fst]
      rw [replaceFirst_map_id (f := fun _ => ({ existing with completed := !existing.completed, updatedAt := ctx.now } : Todo)) (fun t ht => hfind.2.trans ht.symm)]
      exact haft.1
    · intro t ht
      rw [ensureSeedData_fst] at ht
      rcases mem_replaceFirst ht with rfl | hmem
      · exact hclock existing hfind.1
      · exact haft.2 t hmem

theorem inv_applyOp_remove {env : Env} {id : String} {ctx : OpCtx}
    {s : StoreState} (hInv : Inv s) (hv : OpValid (Op.remove id ctx) s) :
    Inv (applyOp env (Op.remove id ctx) s) := by
  have hseed : seedOk ctx.seed := hv
  have haft := afterSeed_inv (c := ctx.seed) hInv hseed
  unfold applyOp deleteTodo
  cases hf :
      findFirst id (ensureSeedData ctx.seed (readStore s).1 (readStore s).2).1 with
  | none => simpa [hf] using inv_seedStep hInv hseed
  | some existing =>
    simp only [hf]
    apply inv_persist
    · rw [ensureSeedData_fst]
      exact haft.1.sublist ((removeFirst_sublist id (afterSeed ctx.seed s)).map Todo.id)
    · intro t ht
      rw [ensureSeedData_fst] at ht
      exact haft.2 t ((removeFirst_sublist id _).subset ht)

theorem find_pos {id : String} {l : List Todo} {e : Todo}
    (h : findFirst id l = some e) : l.length > 0 := by
  cases l with
  | nil => simp [findFirst] at h
  | cons t ts => simp

theorem seeded_of_find {c : SeedCtx} {s : StoreState} {id : String} {e : Todo}
    (h : findFirst id (persistedOf s) = some e) :
    (ensureSeedData c (readStore s).1 (readStore s).2).1 = persistedOf s ∧
      persistedOf (ensureSeedData c (readStore s).1 (readStore s).2).2 =
        persistedOf s := by
  have haft : afterSeed c s = persistedOf s := by
    unfold afterSeed
    rw [if_pos (find_pos h)]
  exact ⟨(ensureSeedData_fst c s).trans haft, (ensureSeedData_snd c s).trans haft⟩

theorem updateTodo_found {env : Env} {id : String} {input : UpdateTodoInput}
    {ctx : OpCtx} {s : StoreState} {e u : Todo}
    (h : findFirst id (persistedOf s) = some e)
    (hp : applyPatch env input ctx.now e = Except.ok u) :
    (updateTodo env id input ctx s).1 = Except.ok u ∧
      persistedOf (updateTodo env id input ctx s).2 =
        replaceFirst id (fun _ => u) (persistedOf s) := by
  obtain ⟨h1, _⟩ := seeded_of_find (c := ctx.seed) h
  simp only [updateTodo, h1, h, hp]
  exact ⟨by rw [cloneTodo_eq], by rw [persistedOf_persist]⟩

theorem updateTodo_found_err {env : Env} {id : String} {input : UpdateTodoInput}
    {ctx : OpCtx} {s : StoreState} {e : Todo} {err : ApiError}
    (h : findFirst id (persistedOf s) = some e)
    (hp : applyPatch env input ctx.now e = Except.error err) :
    (updateTodo env id input ctx s).1 = Except.error err ∧
      persistedOf (updateTodo env id input ctx s).2 = persistedOf s := by
  obtain ⟨h1, h2⟩ := seeded_of_find (c := ctx.seed) h
  simp only [updateTodo, h1, h, hp]
  exact ⟨trivial, h2⟩

/-- C1: for every sequence of create, update, delete and
toggleCompletion operations starting from a persisted collection with
unique ids in which every item satisfies `updatedAt >= createdAt`, the
final persisted collection again has unique ids and satisfies
`updatedAt >= createdAt` for every item. The `ValidTrace` hypothesis
records the environment facts every run of the source enjoys: each
`nanoid()` draw is fresh and the wall clock never runs behind any
stored item's creation time. -/
theorem c1_crud_sequences_preserve_invariants (env : Env) (ops : List Op)
    (s : StoreState) (hInv : Inv s) (hTr : ValidTrace env ops s) :
    Inv (applyOps env ops s) := by
  induction ops generalizing s with
  | nil => exact hInv
  | cons op rest ih =>
    obtain ⟨hv, htr⟩ := hTr
    refine ih (applyOp env op s) ?_ htr
    cases op with
    | create input ctx => exact inv_applyOp_create hInv hv
    | update id input ctx => exact inv_applyOp_update hInv hv
    | toggle id ctx => exact inv_applyOp_toggle hInv hv
    | remove id ctx => exact inv_applyOp_remove hInv hv

/-- Witness for C1: a concrete run (create on an empty store, which
seeds, then a toggle and a delete) ends in a collection satisfying both
invariants. -/
theorem c1_crud_sequences_preserve_invariants_witness :
    Inv (applyOps envNone
      [Op.create { title := " Buy milk ", description := none,
                   dueDate := none, completed := none } ctxC,
       Op.toggle "n1" { now := 10, newId := "n2", seed := seedC },
       Op.remove "s1" { now := 11, newId := "n3", seed := seedC }]
      stEmpty) :=
  c1_crud_sequences_preserve_invariants envNone _ stEmpty (by decide) (by decide)

/-- C3, counterexample: on an empty persisted collection, deleting an
absent id does fail with NotFound, but the failed call does not leave
the persisted collection unchanged — `ensureSeedData` has persisted the
three-item seed set before the lookup fails. -/
theorem c3_counterexample :
    (deleteTodo "x" ctxC stEmpty).1 = Except.error ApiError.notFound ∧
      persistedOf (deleteTodo "x" ctxC stEmpty).2 ≠ persistedOf stEmpty :=
  ⟨rfl, by decide⟩

/-- C3, amended: for every NON-EMPTY persisted collection and every id
not present in it, delete(id) fails with NotFound and the persisted
collection after the failed call is identical to the collection before
the call (an empty collection is instead seeded by the failed call). -/
theorem c3_delete_missing_id (id : String) (ctx : OpCtx) (s : StoreState)
    (hne : persistedOf s ≠ [])
    (habs : findFirst id (persistedOf s) = none) :
    (deleteTodo id ctx s).1 = Except.error ApiError.notFound ∧
      persistedOf (deleteTodo id ctx s).2 = persistedOf s := by
  have hpos : (persistedOf s).length > 0 := List.length_pos.mpr hne
  have haft : afterSeed ctx.seed s = persistedOf s := by
    unfold afterSeed
    rw [if_pos hpos]
  have h1 := (ensureSeedData_fst ctx.seed s).trans haft
  have h2 := (ensureSeedData_snd ctx.seed s).trans haft
  simp only [deleteTodo, h1, habs]
  exact ⟨trivial, h2⟩

/-- Witness for C3: deleting the absent id "zz" from a store holding
exactly one todo rejects with NotFound and leaves the persisted
collection untouched. -/
theorem c3_delete_missing_id_witness :
    (deleteTodo "zz" ctxC stOne).1 = Except.error ApiError.notFound ∧
      persistedOf (deleteTodo "zz" ctxC stOne).2 = persistedOf stOne :=
  c3_delete_missing_id "zz" ctxC stOne (by decide) (by decide)

/-- C4: ensureSeed is idempotent — on the empty collection it produces
the fixed three-item seed set and persists it, on a non-empty
collection it returns input and state unchanged without persisting,
and a second application never re-seeds the (now non-empty) result. -/
theorem c4_ensureSeed_idempotent (c c2 : SeedCtx) (todos : List Todo)
    (s : StoreState) :
    (todos = [] →
      (ensureSeedData c todos s).1 = seedItems c ∧
        persistedOf (ensureSeedData c todos s).2 = seedItems c) ∧
    (todos ≠ [] → ensureSeedData c todos s = (todos, s)) ∧
    ensureSeedData c2 (ensureSeedData c todos s).1 (ensureSeedData c todos s).2 =
      ((ensureSeedData c todos s).1, (ensureSeedData c todos s).2) := by
  by_cases h : todos = []
  · subst h
    refine ⟨fun _ => ⟨?_, ?_⟩, fun hne => absurd rfl hne, ?_⟩
    · simp [ensureSeedData, cloneTodos_eq]
    · simp [ensureSeedData, persistedOf_persist]
    · simp [ensureSeedData, seedItems, cloneTodos_eq]
  · have hpos : todos.length > 0 := List.length_pos.mpr h
    refine ⟨fun he => absurd he h, fun _ => ?_, ?_⟩
    · simp [ensureSeedData, hpos]
    · simp [ensureSeedData, hpos]

/-- Witness for C4: the empty collection is replaced by and persisted
as the seed set, and a singleton collection passes through unchanged. -/
theorem c4_ensureSeed_idempotent_witness :
    (ensureSeedData seedC [] stEmpty).1 = seedItems seedC ∧
      ensureSeedData seedC [todoA] stOne = ([todoA], stOne) :=
  ⟨((c4_ensureSeed_idempotent seedC seedC [] stEmpty).1 rfl).1,
    (c4_ensureSeed_idempotent seedC seedC [todoA] stOne).2.1 (by decide)⟩

/-- C5: persisting a collection and reading it back yields the same
collection field-for-field, a further read still yields it, and the
clone applied at both boundaries of the store shim is a field-for-field
identity (the embedding is pure, so the rebuilt copies returned to
callers cannot alias the stored collection). -/
theorem c5_persist_read_roundtrip (c : List Todo) (s : StoreState) :
    (readStore (persist c s)).1 = c ∧
      (readStore ((readStore (persist c s)).2)).1 = c ∧
      cloneTodos c = c := by
  refine ⟨persistedOf_persist c s, ?_, cloneTodos_eq c⟩
  exact (persistedOf_readStore_snd (persist c s)).trans (persistedOf_persist c s)

/-- C6: updating an existing id with the empty partial changes only
`updatedAt` on the targeted item — its other six fields are kept — and
every other item of the persisted collection is untouched. -/
theorem c6_empty_update_touches_only_updatedAt (env : Env) (id : String)
    (ctx : OpCtx) (s : StoreState) (e : Todo)
    (h : findFirst id (persistedOf s) = some e) :
    (updateTodo env id emptyPatch ctx s).1 =
        Except.ok { e with updatedAt := ctx.now } ∧
      persistedOf (updateTodo env id emptyPatch ctx s).2 =
        replaceFirst id (fun _ => { e with updatedAt := ctx.now })
          (persistedOf s) ∧
      ∀ t ∈ persistedOf s, t.id ≠ id →
        t ∈ persistedOf (updateTodo env id emptyPatch ctx s).2 := by
  have hp : applyPatch env emptyPatch ctx.now e =
      Except.ok { e with updatedAt := ctx.now } := rfl
  obtain ⟨hres, hstate⟩ := updateTodo_found h hp
  refine ⟨hres, hstate, fun t ht hne => ?_⟩
  rw [hstate]
  exact mem_replaceFirst_of_ne ht hne

/-- Witness for C6: the empty update of `todoA` returns it with only
`updatedAt` refreshed. -/
theorem c6_empty_update_touches_only_updatedAt_witness :
    (updateTodo envNone "t1" emptyPatch ctxC stOne).1 =
      Except.ok { todoA with updatedAt := 9 } :=
  (c6_empty_update_touches_only_updatedAt envNone "t1" ctxC stOne todoA
    (by decide)).1

/-- C8: list() always succeeds, returning all todos of the worked-on
collection (the seed set when the persisted collection was empty)
ordered by `createdAt` descending: every earlier item's `createdAt` is
greater than or equal to every later item's. -/
theorem c8_list_sorted_desc (c : SeedCtx) (s : StoreState) :
    ∃ r, (listTodos c s).1 = Except.ok r ∧
      r.Pairwise (fun a b => b.createdAt ≤ a.createdAt) ∧
      List.Perm r (afterSeed c s) := by
  refine ⟨sortByCreatedAtDesc
    (ensureSeedData c (readStore s).1 (readStore s).2).1, rfl,
    sortByCreatedAtDesc_pairwise _, ?_⟩
  rw [ensureSeedData_fst]
  exact sortByCreatedAtDesc_perm _

/-- C2, counterexample: a partial whose `dueDate` key is present but
carries no value (undefined) does not leave the field untouched — it
clears a previously set due date, so update does not apply exactly the
fields present with a value, nor leave valueless keys untouched. -/
theorem c2_counterexample :
    todoA.dueDate = some 5 ∧
      ({ emptyPatch with dueDate := Arg.undef } : UpdateTodoInput).dueDate =
        Arg.undef ∧
      (updateTodo envNone "t1" { emptyPatch with dueDate := Arg.undef }
        ctxC stOne).1.toOption =
        some { todoA with dueDate := none, updatedAt := 9 } ∧
      (updateTodo envNone "t1" { emptyPatch with dueDate := Arg.undef }
        ctxC stOne).1.toOption ≠ some { todoA with updatedAt := 9 } := by
  decide

/-- C2, amended: for every existing id, update applies exactly the
fields whose keys are present with a defined value — trimming title and
description — except `dueDate`, which is applied whenever its key is
present: undefined and null and the empty string all clear it, and a
non-empty string is parsed to a canonical timestamp. `updatedAt` is
always refreshed, the result is persisted in place, and the updated
item is returned. -/
theorem c2_update_presence_semantics (env : Env) (id : String)
    (input : UpdateTodoInput) (ctx : OpCtx) (s : StoreState) (e : Todo)
    (h : findFirst id (persistedOf s) = some e)
    (hdd : DueDateParses env input.dueDate) :
    ∃ u, (updateTodo env id input ctx s).1 = Except.ok u ∧
      persistedOf (updateTodo env id input ctx s).2 =
        replaceFirst id (fun _ => u) (persistedOf s) ∧
      u.id = e.id ∧ u.createdAt = e.createdAt ∧ u.updatedAt = ctx.now ∧
      u.title = (match input.title with
        | Arg.val v => jsTrim v
        | _ => e.title) ∧
      u.description = (match input.description with
        | Arg.val v => jsTrim v
        | _ => e.description) ∧
      u.completed = (match input.completed with
        | Arg.val v => v
        | _ => e.completed) ∧
      u.dueDate = patchedDueDate env input.dueDate e.dueDate := by
  have hdue : (match input.dueDate with
      | Arg.absent => Except.ok e.dueDate
      | Arg.undef => Except.ok none
      | Arg.val v => normalizeDueDate env v) =
      Except.ok (patchedDueDate env input.dueDate e.dueDate) := by
    cases hd : input.dueDate with
    | absent => rfl
    | undef => rfl
    | val v =>
      cases v with
      | none => rfl
      | some str =>
        by_cases hs : str = ""
        · subst hs
          simp [normalizeDueDate, patchedDueDate]
        · have hne := hdd str hd hs
          cases hpd : env.parseDate str with
          | none => exact absurd hpd hne
          | some n => simp [normalizeDueDate, patchedDueDate, hs, hpd]
  have hp : applyPatch env input ctx.now e = Except.ok
      { e with
        title := match input.title with
          | Arg.val v => jsTrim v
          | _ => e.title
        description := match input.description with
          | Arg.val v => jsTrim v
          | _ => e.description
        dueDate := patchedDueDate env input.dueDate e.dueDate
        completed := match input.completed with
          | Arg.val v => v
          | _ => e.completed
        updatedAt := ctx.now } := by
    unfold applyPatch
    rw [hdue]
  obtain ⟨hres, hstate⟩ := updateTodo_found h hp
  exact ⟨_, hres, hstate, rfl, rfl, rfl, rfl, rfl, rfl, rfl⟩

/-- Witness for C2: an update carrying a title with surrounding
whitespace, an undefined description, a parsable due-date string and an
explicit completed flag yields exactly the trimmed title, the parsed
due date and the flag. -/
theorem c2_update_presence_semantics_witness :
    ∃ u, (updateTodo envAll "t1"
        { title := Arg.val " New ", description := Arg.undef,
          dueDate := Arg.val (some "x"), completed := Arg.val true }
        ctxC stOne).1 = Except.ok u ∧
      u.title = "New" ∧ u.dueDate = some 7 ∧ u.completed = true := by
  obtain ⟨u, hres, hst, hid, hcr, hup, hti, hde, hco, hdu⟩ :=
    c2_update_presence_semantics envAll "t1"
      { title := Arg.val " New ", description := Arg.undef,
        dueDate := Arg.val (some "x"), completed := Arg.val true }
      ctxC stOne todoA (by decide) (fun str h1 h2 => by simp [envAll])
  exact ⟨u, hres, hti.trans (by decide), hdu.trans (by decide),
    hco.trans (by decide)⟩

/-- C7: create returns a todo carrying the supplied fresh id, the
trimmed title, the trimmed (or empty) description, the normalized due
date (null when the input supplies none), completed defaulting to
false, and `createdAt = updatedAt = now`; the item is inserted into the
worked-on collection, which is re-sorted and persisted. -/
theorem c7_create_contract (env : Env) (input : CreateTodoInput) (ctx : OpCtx)
    (s : StoreState) (dd : Option Int)
    (hd : normalizeDueDate env input.dueDate.join = Except.ok dd) :
    (createTodo env input ctx s).1 = Except.ok
      { id := ctx.newId, title := jsTrim input.title,
        description := (input.description.map jsTrim).getD "",
        dueDate := dd, completed := input.completed.getD false,
        createdAt := ctx.now, updatedAt := ctx.now } ∧
    (input.dueDate.join = none → dd = none) ∧
    persistedOf (createTodo env input ctx s).2 =
      sortByCreatedAtDesc
        ({ id := ctx.newId, title := jsTrim input.title,
           description := (input.description.map jsTrim).getD "",
           dueDate := dd, completed := input.completed.getD false,
           createdAt := ctx.now, updatedAt := ctx.now } ::
          afterSeed ctx.seed s) := by
  refine ⟨?_, ?_, ?_⟩
  · simp only [createTodo, hd]
    rw [cloneTodo_eq]
  · intro hj
    rw [hj] at hd
    simp [normalizeDueDate] at hd
    exact hd.symm
  · simp only [createTodo, hd]
    rw [persistedOf_persist, ensureSeedData_fst]

/-- Witness for C7, the spec scenario: creating "Buy milk" with no due
date yields completed = false, dueDate = null and
createdAt = updatedAt. -/
theorem c7_create_contract_witness :
    (createTodo envNone
      { title := "Buy milk", description := none, dueDate := none,
        completed := none } ctxC stEmpty).1 =
      Except.ok
        { id := "n1", title := "Buy milk", description := "",
          dueDate := none, completed := false, createdAt := 9,
          updatedAt := 9 } :=
  (c7_create_contract envNone
    { title := "Buy milk", description := none, dueDate := none,
      completed := none } ctxC stEmpty none rfl).1

/-- C9: a present, non-empty due-date string that does not parse as a
date makes create throw, and update on an existing id with that partial
throw, a runtime error (the RangeError of toISOString on an Invalid
Date) that is not NotFound. -/
theorem c9_unparsable_dueDate_throws (env : Env) (str : String)
    (input : CreateTodoInput) (upd : UpdateTodoInput) (ctx : OpCtx)
    (s : StoreState) (id : String) (e : Todo)
    (hstr : str ≠ "") (hp : env.parseDate str = none)
    (h : findFirst id (persistedOf s) = some e) :
    (createTodo env { input with dueDate := some (some str) } ctx s).1 =
        Except.error ApiError.invalidDate ∧
      (updateTodo env id { upd with dueDate := Arg.val (some str) } ctx s).1 =
        Except.error ApiError.invalidDate ∧
      ApiError.invalidDate ≠ ApiError.notFound := by
  have hn : normalizeDueDate env (some str) =
      Except.error ApiError.invalidDate := by
    simp [normalizeDueDate, hstr, hp]
  refine ⟨?_, ?_, by decide⟩
  · have hj : ({ input with dueDate := some (some str) } :
        CreateTodoInput).dueDate.join = some str := rfl
    simp only [createTodo, hj, hn]
  · have hap : applyPatch env { upd with dueDate := Arg.val (some str) }
        ctx.now e = Except.error ApiError.invalidDate := by
      unfold applyPatch
      dsimp only
      rw [hn]
    exact (updateTodo_found_err h hap).1

/-- Witness for C9: the string "not-a-date" (unparsable in the witness
environment) makes both create and update reject with the date error. -/
theorem c9_unparsable_dueDate_throws_witness :
    (createTodo envNone
        { title := "a", description := none,
          dueDate := some (some "not-a-date"), completed := none }
        ctxC stOne).1 = Except.error ApiError.invalidDate ∧
      (updateTodo envNone "t1"
        { emptyPatch with dueDate := Arg.val (some "not-a-date") }
        ctxC stOne).1 = Except.error ApiError.invalidDate := by
  obtain ⟨h1, h2, h3⟩ :=
    c9_unparsable_dueDate_throws envNone "not-a-date"
      { title := "a", description := none, dueDate := none,
        completed := none }
      emptyPatch ctxC stOne "t1" todoA (by decide) rfl (by decide)
  exact ⟨h1, h2⟩

/-- C10: in update, any falsy `dueDate` value clears the stored due
date — the empty string, undefined, and explicit null all store null,
the same result — and create maps an empty-string due date to null. -/
theorem c10_falsy_dueDate_clears (env : Env) (id : String) (ctx : OpCtx)
    (s : StoreState) (e : Todo) (input : CreateTodoInput)
    (h : findFirst id (persistedOf s) = some e)
    (hin : input.dueDate = some (some "")) :
    (updateTodo env id { emptyPatch with dueDate := Arg.val (some "") }
        ctx s).1 = Except.ok { e with dueDate := none, updatedAt := ctx.now } ∧
      persistedOf (updateTodo env id
          { emptyPatch with dueDate := Arg.val (some "") } ctx s).2 =
        replaceFirst id
          (fun _ => { e with dueDate := none, updatedAt := ctx.now })
          (persistedOf s) ∧
      (updateTodo env id { emptyPatch with dueDate := Arg.undef } ctx s).1 =
        Except.ok { e with dueDate := none, updatedAt := ctx.now } ∧
      (updateTodo env id { emptyPatch with dueDate := Arg.val none } ctx s).1 =
        Except.ok { e with dueDate := none, updatedAt := ctx.now } ∧
      (createTodo env input ctx s).1.map Todo.dueDate = Except.ok none := by
  have hp1 : applyPatch env { emptyPatch with dueDate := Arg.val (some "") }
      ctx.now e = Except.ok { e with dueDate := none, updatedAt := ctx.now } :=
    rfl
  have hp2 : applyPatch env { emptyPatch with dueDate := Arg.undef }
      ctx.now e = Except.ok { e with dueDate := none, updatedAt := ctx.now } :=
    rfl
  have hp3 : applyPatch env { emptyPatch with dueDate := Arg.val none }
      ctx.now e = Except.ok { e with dueDate := none, updatedAt := ctx.now } :=
    rfl
  refine ⟨(updateTodo_found h hp1).1, (updateTodo_found h hp1).2,
    (updateTodo_found h hp2).1, (updateTodo_found h hp3).1, ?_⟩
  have hj : input.dueDate.join = some "" := by rw [hin]; rfl
  have hn0 : normalizeDueDate env input.dueDate.join = Except.ok none := by
    rw [hj]; simp [normalizeDueDate]
  simp only [createTodo, hn0]
  rfl

/-- Witness for C10: clearing `todoA`'s due date with an empty-string
update, and creating with an empty-string due date, both store null. -/
theorem c10_falsy_dueDate_clears_witness :
    (updateTodo envNone "t1" { emptyPatch with dueDate := Arg.val (some "") }
        ctxC stOne).1 =
        Except.ok { todoA with dueDate := none, updatedAt := 9 } ∧
      (createTodo envNone
        { title := "b", description := none, dueDate := some (some ""),
          completed := none } ctxC stOne).1.map Todo.dueDate =
        Except.ok none := by
  obtain ⟨h1, h2, h3, h4, h5⟩ :=
    c10_falsy_dueDate_clears envNone "t1" ctxC stOne todoA
      { title := "b", description := none, dueDate := some (some ""),
        completed := none }
      (by decide) rfl
  exact ⟨h1, h5⟩

end TodoApp
